import Mathlib

/-!
Verification of the MIDI event-list subsystem of the tracktion_engine excerpt:
the sorted event cache of `MidiList::EventList` (tracktion_MidiList.h), the
bounds-checked accessors, the semantic list operations described by the spec,
and the loop expansion of `MidiClip` (tracktion_MidiClip.h).

Beat positions are modelled as rationals.  Machinery that lives in external
libraries is modelled by its documented contract: `std::sort` guarantees only a
permutation of its input that is sorted with respect to the comparator (the
relative order of equivalent elements is unspecified; that is what
`std::stable_sort` would add), and `juce::Array::operator[]` performs a bounds
check and returns a default-constructed value (a null pointer for pointer
element types) when the index is out of range, while `getUnchecked` omits the
check.
-/

/-- A timed event as seen by `MidiList::EventList`: only the beat position is
relevant to sorting.  `payload` stands for the identity/content of the wrapper
object, letting us talk about which event is which after sorting. -/
structure MidiEvent where
  beatPosition : ℚ
  payload : ℕ
deriving DecidableEq, Repr

/-- Non-strict comparison on beat positions.  A list sorted with respect to the
strict comparator of `MidiList::sortMidiEventsByTime`
(`a->getBeatPosition() < b->getBeatPosition()`) is exactly a list that is
pairwise `beatLE`. -/
def beatLE (a b : MidiEvent) : Prop :=
  a.beatPosition ≤ b.beatPosition

instance : DecidableRel beatLE :=
  fun a b => inferInstanceAs (Decidable (a.beatPosition ≤ b.beatPosition))

instance : IsTotal MidiEvent beatLE :=
  ⟨fun a b => le_total a.beatPosition b.beatPosition⟩

instance : IsTrans MidiEvent beatLE :=
  ⟨fun _ _ _ hab hbc => le_trans hab hbc⟩

/-- Contract of `MidiList::sortMidiEventsByTime` (tracktion_MidiList.h lines
217-222): it calls `std::sort` with the comparator
`a->getBeatPosition() < b->getBeatPosition()`.  `std::sort` guarantees that the
output is a permutation of the input sorted with respect to the comparator, and
nothing more: in particular the relative order of elements with equal beat
positions is unspecified. -/
def SortMidiEventsByTimeSpec (input output : List MidiEvent) : Prop :=
  output.Perm input ∧ output.Sorted beatLE

/-- A function implements `sortMidiEventsByTime` when every output it produces
is allowed by the `std::sort` contract. -/
def IsSortMidiEventsByTime (f : List MidiEvent → List MidiEvent) : Prop :=
  ∀ l, SortMidiEventsByTimeSpec l (f l)

/-- One concrete implementation allowed by the contract (used for witnesses). -/
def sortByBeat (l : List MidiEvent) : List MidiEvent :=
  l.insertionSort beatLE

/-- Two distinct events sharing beat position 0, used to discuss stability. -/
def eqBeatA : MidiEvent := ⟨0, 0⟩

/-- Second event at beat position 0. -/
def eqBeatB : MidiEvent := ⟨0, 1⟩

/-- Another implementation allowed by the `std::sort` contract: on the input
`[eqBeatA, eqBeatB]` it returns the two equal-beat events swapped (which is
sorted, since their beat positions are equal), and behaves like `sortByBeat`
everywhere else. -/
def swappingSort (l : List MidiEvent) : List MidiEvent :=
  if l = [eqBeatA, eqBeatB] then [eqBeatB, eqBeatA] else sortByBeat l

/-- State of one `MidiList::EventList` (tracktion_MidiList.h lines 260-324):
the wrapper objects mirrored from the `ValueTree` (in creation order), the
`needsSorting` dirty flag and the cached `sortedEvents` array.  The
`needsSorting = true` initialiser of line 319 is reproduced by
`initialEventList`. -/
structure EventListState where
  objects : List MidiEvent
  needsSorting : Bool
  sortedEvents : List MidiEvent
deriving DecidableEq, Repr

/-- A freshly constructed `EventList` (empty tree): `needsSorting` starts
`true` (tracktion_MidiList.h line 319). -/
def initialEventList : EventListState :=
  { objects := [], needsSorting := true, sortedEvents := [] }

/-- `EventList::triggerSort` (lines 297-301): mark the cache dirty. -/
def triggerSort (s : EventListState) : EventListState :=
  { s with needsSorting := true }

/-- `EventList::getSortedList` (lines 303-317), parametrised by the sorting
function standing for `sortMidiEventsByTime`: if dirty, copy the wrapper set,
sort it, clear the flag; return the cached array together with the updated
state. -/
def getSortedList (sortFn : List MidiEvent → List MidiEvent)
    (s : EventListState) : List MidiEvent × EventListState :=
  if s.needsSorting then
    (sortFn s.objects,
     { s with needsSorting := false, sortedEvents := sortFn s.objects })
  else
    (s.sortedEvents, s)

/-- `EventList::newObjectAdded` (line 286): the wrapper for a new child record
is registered (appended in creation order) and the cache is marked dirty. -/
def newObjectAdded (e : MidiEvent) (s : EventListState) : EventListState :=
  triggerSort { s with objects := s.objects ++ [e] }

/-- `EventList::objectRemoved` (line 287): the wrapper is destroyed and the
cache is marked dirty. -/
def objectRemoved (e : MidiEvent) (s : EventListState) : EventListState :=
  triggerSort { s with objects := s.objects.erase e }

/-- The operations driving one `EventList`: insertion, removal, an
order-affecting property change (which reaches `triggerSort` through
`valueTreePropertyChanged`, line 290-295), and a read through
`getSortedList`. -/
inductive EventListOp
  | addObject (e : MidiEvent)
  | removeObject (e : MidiEvent)
  | markDirty
  | readSorted
deriving DecidableEq, Repr

/-- Apply one operation to an `EventList` state. -/
def applyOp (sortFn : List MidiEvent → List MidiEvent)
    (s : EventListState) : EventListOp → EventListState
  | .addObject e => newObjectAdded e s
  | .removeObject e => objectRemoved e s
  | .markDirty => triggerSort s
  | .readSorted => (getSortedList sortFn s).2

/-- Run a sequence of operations from a state. -/
def runOps (sortFn : List MidiEvent → List MidiEvent)
    (ops : List EventListOp) (s : EventListState) : EventListState :=
  ops.foldl (applyOp sortFn) s

/-- Number of cache rebuilds an operation performs from a given state: a
`readSorted` rebuilds exactly when the dirty flag is set, nothing else ever
rebuilds. -/
def rebuildsOf (s : EventListState) : EventListOp → ℕ
  | .readSorted => if s.needsSorting then 1 else 0
  | _ => 0

/-- Run a sequence of operations, accumulating the number of rebuilds. -/
def runCounting (sortFn : List MidiEvent → List MidiEvent)
    (ops : List EventListOp) (s : EventListState) (c : ℕ) :
    EventListState × ℕ :=
  match ops with
  | [] => (s, c)
  | op :: rest => runCounting sortFn rest (applyOp sortFn s op) (c + rebuildsOf s op)

/-- Claim C1 as stated: for every implementation of `sortMidiEventsByTime`
allowed by the `std::sort` contract and every sequence of operations, the
sorted view is non-decreasing by beat position AND events with equal beat
positions retain their relative insertion order (stability, expressed as:
filtering the output at any fixed beat position yields the insertion-order
subsequence). -/
def C1StabilityClaim : Prop :=
  ∀ sortFn, IsSortMidiEventsByTime sortFn →
    ∀ ops : List EventListOp,
      ((getSortedList sortFn (runOps sortFn ops initialEventList)).1).Sorted beatLE
      ∧ ∀ q : ℚ,
          ((getSortedList sortFn (runOps sortFn ops initialEventList)).1).filter
              (fun e => decide (e.beatPosition = q)) =
            ((runOps sortFn ops initialEventList).objects).filter
              (fun e => decide (e.beatPosition = q))

/-- Cache coherence invariant of an `EventList` state: either the dirty flag is
set, or the cached array is a sorted permutation of the wrapper set. -/
def SortedCacheInv (s : EventListState) : Prop :=
  s.needsSorting = true ∨ SortMidiEventsByTimeSpec s.objects s.sortedEvents

/-- The three observed collections owned by a `MidiList`
(tracktion_MidiList.h lines 326-331). -/
structure MidiListState where
  noteList : EventListState
  controllerList : EventListState
  sysexList : EventListState
deriving DecidableEq, Repr

/-- `MidiList::getNotes` (line 44): the sorted view of the note list. -/
def getNotes (sortFn : List MidiEvent → List MidiEvent) (s : MidiListState) :
    List MidiEvent :=
  (getSortedList sortFn s.noteList).1

/-- `MidiList::getControllerEvents` (line 46). -/
def getControllerEvents (sortFn : List MidiEvent → List MidiEvent)
    (s : MidiListState) : List MidiEvent :=
  (getSortedList sortFn s.controllerList).1

/-- `MidiList::getSysexEvents` (line 48). -/
def getSysexEvents (sortFn : List MidiEvent → List MidiEvent)
    (s : MidiListState) : List MidiEvent :=
  (getSortedList sortFn s.sysexList).1

/-- `juce::Array::operator[]` for an array of owning pointers: if the index is
out of range a default-constructed element — a null pointer, modelled as
`none` — is returned. -/
def juceArrayGet (l : List MidiEvent) (index : ℤ) : Option MidiEvent :=
  if h : 0 ≤ index ∧ index.toNat < l.length then some (l.get ⟨index.toNat, h.2⟩)
  else none

/-- `MidiList::getNote` (line 91): `getNotes()[index]`. -/
def getNote (sortFn : List MidiEvent → List MidiEvent) (s : MidiListState)
    (index : ℤ) : Option MidiEvent :=
  juceArrayGet (getNotes sortFn s) index

/-- `MidiList::getControllerEvent` (line 118): `getControllerEvents()[index]`. -/
def getControllerEvent (sortFn : List MidiEvent → List MidiEvent)
    (s : MidiListState) (index : ℤ) : Option MidiEvent :=
  juceArrayGet (getControllerEvents sortFn s) index

/-- `MidiList::getSysexEvent` (line 152): `getSysexEvents()[index]`. -/
def getSysexEvent (sortFn : List MidiEvent → List MidiEvent)
    (s : MidiListState) (index : ℤ) : Option MidiEvent :=
  juceArrayGet (getSysexEvents sortFn s) index

/-- `MidiList::getSysexEventUnchecked` (line 154):
`getSysexEvents().getUnchecked (index)` performs no bounds check, so the model
demands the bound as a precondition instead of returning an option. -/
def getSysexEventUnchecked (sortFn : List MidiEvent → List MidiEvent)
    (s : MidiListState) (index : ℕ)
    (h : index < (getSysexEvents sortFn s).length) : MidiEvent :=
  (getSysexEvents sortFn s).get ⟨index, h⟩

/-- `MidiClip::LoopedSequenceType` (tracktion_MidiClip.h lines 194-198). -/
inductive LoopedSequenceType
  | loopRangeDefinesAllRepetitions
  | loopRangeDefinesSubsequentRepetitions
deriving DecidableEq, Repr

/-- Membership of an event in the loop window
`[loopStartBeats, loopStartBeats + loopLengthBeats)`. -/
def inLoopWindow (loopStartBeats loopLengthBeats : ℚ) (e : MidiEvent) : Bool :=
  decide (loopStartBeats ≤ e.beatPosition)
    && decide (e.beatPosition < loopStartBeats + loopLengthBeats)

/-- The source events lying inside the loop window. -/
def loopWindowEvents (src : List MidiEvent) (loopStartBeats loopLengthBeats : ℚ) :
    List MidiEvent :=
  src.filter (inLoopWindow loopStartBeats loopLengthBeats)

/-- Copy a batch of window events to one repetition starting at `base`:
an event at source beat `p` lands at `base + (p - loopStartBeats)`. -/
def placeRepetition (loopStartBeats base : ℚ) (events : List MidiEvent) :
    List MidiEvent :=
  events.map (fun e => { e with beatPosition := base + (e.beatPosition - loopStartBeats) })

/-- Number of repetitions of a window of length `loopLengthBeats` needed to
cover `len` beats. -/
def repsToCover (len loopLengthBeats : ℚ) : ℕ :=
  (⌈len / loopLengthBeats⌉).toNat

/-- Modelled from the spec: the body of `MidiClip::createSequenceLooped`
(tracktion_MidiClip.h line 40) is not under src/; only its declaration and the
`LoopedSequenceType` documentation are.  Modelled from that documentation
("loopRangeDefinesAllRepetitions: the looped sequence is the same for all
repetitions including the first"; "loopRangeDefinesSubsequentRepetitions: the
first section is the whole sequence, subsequent repetitions are determined by
the loop range") together with spec sections 4.4 and 8: under
`loopRangeDefinesAllRepetitions` the exported range is tiled from the loop
window starting at repetition zero; under
`loopRangeDefinesSubsequentRepetitions` the whole source sequence (`srcLen`
beats) plays verbatim first and the window is tiled after it.  Events beyond
the requested export length are dropped. -/
def createSequenceLooped (policy : LoopedSequenceType)
    (loopStartBeats loopLengthBeats srcLen exportLen : ℚ)
    (src : List MidiEvent) : List MidiEvent :=
  match policy with
  | .loopRangeDefinesAllRepetitions =>
      ((List.range (repsToCover exportLen loopLengthBeats)).flatMap
        (fun i => placeRepetition loopStartBeats ((i : ℚ) * loopLengthBeats)
          (loopWindowEvents src loopStartBeats loopLengthBeats))).filter
        (fun e => decide (e.beatPosition < exportLen))
  | .loopRangeDefinesSubsequentRepetitions =>
      src.filter (fun e => decide (0 ≤ e.beatPosition)
          && decide (e.beatPosition < srcLen) && decide (e.beatPosition < exportLen))
        ++ ((List.range (repsToCover (exportLen - srcLen) loopLengthBeats)).flatMap
            (fun i => placeRepetition loopStartBeats (srcLen + (i : ℚ) * loopLengthBeats)
              (loopWindowEvents src loopStartBeats loopLengthBeats))).filter
            (fun e => decide (e.beatPosition < exportLen))

/-- Claim C3 as stated: under `loopRangeDefinesSubsequentRepetitions` the
looped sequence has beats `[0, loopLength)` verbatim from the source and only
beats beyond `loopLength` repeat the `[loopStart, loopStart + loopLength)`
window (an event beyond the verbatim part sits at
`loopLength + i * loopLength + (sourceBeat - loopStart)` for some repetition
`i`). -/
def C3SubsequentClaimAsStated : Prop :=
  ∀ loopStartBeats loopLengthBeats srcLen exportLen : ℚ, ∀ src : List MidiEvent,
    0 < loopLengthBeats →
    ∀ e, e ∈ createSequenceLooped .loopRangeDefinesSubsequentRepetitions
        loopStartBeats loopLengthBeats srcLen exportLen src ↔
      ((e ∈ src ∧ 0 ≤ e.beatPosition ∧ e.beatPosition < loopLengthBeats
          ∧ e.beatPosition < exportLen)
       ∨ (∃ i : ℕ, ∃ e0 ∈ src,
            (loopStartBeats ≤ e0.beatPosition
              ∧ e0.beatPosition < loopStartBeats + loopLengthBeats)
            ∧ e.payload = e0.payload
            ∧ e.beatPosition
                = loopLengthBeats + (i : ℚ) * loopLengthBeats
                  + (e0.beatPosition - loopStartBeats)
            ∧ e.beatPosition < exportLen))

/-- State of a `MidiClip` as far as takes and the looped-sequence cache are
concerned (tracktion_MidiClip.h lines 238-282): the take sequences
(`channelSequence`), the index of the current take, the loop parameters and
the lazily built `cachedLoopedSequence`.  `clipLengthBeats` is the length of
the exported range. -/
structure MidiClipState where
  channelSequence : List (List MidiEvent)
  currentTake : ℕ
  loopedSequenceType : LoopedSequenceType
  loopStartBeats : ℚ
  loopLengthBeats : ℚ
  originalLength : ℚ
  clipLengthBeats : ℚ
  cachedLoopedSequence : Option (List MidiEvent)
deriving DecidableEq, Repr

/-- Modelled from the spec: the body of `MidiClip::clearCachedLoopSequence`
(tracktion_MidiClip.h line 292) is not under src/.  Per its documentation it
invalidates the cached looped sequence. -/
def clearCachedLoopSequence (s : MidiClipState) : MidiClipState :=
  { s with cachedLoopedSequence := none }

/-- Modelled from the spec: the body of `MidiClip::setCurrentTake`
(tracktion_MidiClip.h line 159) is not under src/.  Per spec section 4.4
("selecting a new current take invalidates the looped-sequence cache but never
mutates non-current takes") it records the new take index and clears the
cache; the take contents themselves are untouched. -/
def setCurrentTake (takeIndex : ℕ) (s : MidiClipState) : MidiClipState :=
  clearCachedLoopSequence { s with currentTake := takeIndex }

/-- `MidiClip::getSequence` (line 36): the current take's list (empty if the
index is out of range). -/
def getSequence (s : MidiClipState) : List MidiEvent :=
  s.channelSequence.getD s.currentTake []

/-- Modelled from the spec: the body of `MidiClip::getSequenceLooped`
(tracktion_MidiClip.h line 38) is not under src/.  Per its documentation and
spec section 4.4 it returns the cached looped sequence, building it from the
current take and the loop parameters when no cache exists. -/
def getSequenceLooped (s : MidiClipState) : List MidiEvent × MidiClipState :=
  match s.cachedLoopedSequence with
  | some cached => (cached, s)
  | none =>
      let seq := createSequenceLooped s.loopedSequenceType s.loopStartBeats
        s.loopLengthBeats s.originalLength s.clipLengthBeats (getSequence s)
      (seq, { s with cachedLoopedSequence := some seq })

/-- Error taxonomy of spec section 7 (the part these claims need). -/
inductive TracktionError
  | InvalidParameter
deriving DecidableEq, Repr

/-- A MIDI note as described by spec section 3. -/
structure MidiNote where
  pitch : ℤ
  startBeat : ℚ
  lengthInBeats : ℚ
  velocity : ℤ
  colourIndex : ℤ
deriving DecidableEq, Repr

/-- A controller event as described by spec section 3. -/
structure ControllerEvent where
  beatPosition : ℚ
  controllerType : ℤ
  controllerValue : ℤ
deriving DecidableEq, Repr

/-- A sysex event as described by spec section 3. -/
structure SysexEvent where
  beatPosition : ℚ
  bytes : List ℕ
deriving DecidableEq, Repr

/-- An entry of the undo log (spec sections 4.3 and 7: mutating operations are
recorded in the undo log, and failed validation must leave the log
untouched). -/
inductive UndoDelta
  | noteAdded (n : MidiNote)
deriving DecidableEq, Repr

/-- Contents of a `MidiList` as the semantic operations of spec section 4.3
see them: the three event collections plus the undo log. -/
structure MidiListContents where
  notes : List MidiNote
  controllerEvents : List ControllerEvent
  sysexEvents : List SysexEvent
  undoLog : List UndoDelta
deriving DecidableEq, Repr

/-- Modelled from the spec: the body of `MidiList::addNote`
(tracktion_MidiList.h line 107) is not under src/.  Spec section 4.3:
"addNote(pitch∈[0,127], startBeat≥0, lengthBeats>0, velocity∈[0,127],
colorTag) → creates and returns new Note; fails with InvalidParameter if
pitch/velocity out of range", and section 7: validation happens before any
mutation, so a rejected call leaves the list and the undo log untouched. -/
def addNote (pitch : ℤ) (startBeat lengthInBeats : ℚ) (velocity colourIndex : ℤ)
    (s : MidiListContents) : MidiListContents × Except TracktionError MidiNote :=
  if pitch < 0 ∨ 127 < pitch ∨ velocity < 0 ∨ 127 < velocity then
    (s, .error .InvalidParameter)
  else
    ({ s with
        notes := s.notes ++ [⟨pitch, startBeat, lengthInBeats, velocity, colourIndex⟩],
        undoLog := s.undoLog
          ++ [.noteAdded ⟨pitch, startBeat, lengthInBeats, velocity, colourIndex⟩] },
     .ok ⟨pitch, startBeat, lengthInBeats, velocity, colourIndex⟩)

/-- Clip a note at the trailing boundary: a note starting inside the kept
range but ending beyond `lastBeat` is shortened to end exactly at
`lastBeat`. -/
def clipNoteAt (lastBeat : ℚ) (n : MidiNote) : MidiNote :=
  if lastBeat < n.startBeat + n.lengthInBeats then
    { n with lengthInBeats := lastBeat - n.startBeat }
  else n

/-- Modelled from the spec: the body of `MidiList::trimOutside`
(tracktion_MidiList.h line 81) is not under src/.  Spec section 4.3: remove
every event whose position lies outside `[firstBeat, lastBeat]`; notes whose
start is inside but whose end is outside are clipped at the boundary rather
than removed. -/
def trimOutside (firstBeat lastBeat : ℚ) (s : MidiListContents) :
    MidiListContents :=
  { s with
    notes := (s.notes.filter (fun n =>
        decide (firstBeat ≤ n.startBeat) && decide (n.startBeat ≤ lastBeat))).map
      (clipNoteAt lastBeat),
    controllerEvents := s.controllerEvents.filter (fun e =>
      decide (firstBeat ≤ e.beatPosition) && decide (e.beatPosition ≤ lastBeat)),
    sysexEvents := s.sysexEvents.filter (fun e =>
      decide (firstBeat ≤ e.beatPosition) && decide (e.beatPosition ≤ lastBeat)) }

/-- Modelled from the spec: the body of `MidiList::rescale`
(tracktion_MidiList.h line 85) is not under src/.  Spec section 4.3:
"rescale(factor>0) → multiplies every beat position and note length by factor;
factor≤0 fails with InvalidParameter".  Beat arithmetic is modelled exactly
over the rationals. -/
def rescale (factor : ℚ) (s : MidiListContents) :
    MidiListContents × Except TracktionError Unit :=
  if factor ≤ 0 then
    (s, .error .InvalidParameter)
  else
    ({ s with
        notes := s.notes.map (fun n =>
          { n with startBeat := n.startBeat * factor,
                   lengthInBeats := n.lengthInBeats * factor }),
        controllerEvents := s.controllerEvents.map (fun e =>
          { e with beatPosition := e.beatPosition * factor }),
        sysexEvents := s.sysexEvents.map (fun e =>
          { e with beatPosition := e.beatPosition * factor }) },
     .ok ())

/-- Modelled from the spec: the body of
`MidiList::insertRepeatedControllerValue` (tracktion_MidiList.h lines 143-145)
is not under src/.  Spec sections 4.3 and 8: write an evenly spaced linear
ramp of controller events between `startVal` and `endVal` across
`[rangeStart, rangeEnd)` at interval `intervalBeats`, inclusive of the range
start and exclusive of the range end; the ramp runs linearly from `startVal`
at the first written event to `endVal` at the last one, interpolated values
rounded down (the rule that reproduces the spec's scenario values
{0,42,84,127}). -/
def insertRepeatedControllerValue (ctype startVal endVal : ℤ)
    (rangeStart rangeEnd intervalBeats : ℚ) (s : MidiListContents) :
    MidiListContents :=
  let count := (⌈(rangeEnd - rangeStart) / intervalBeats⌉).toNat
  { s with
    controllerEvents := s.controllerEvents
      ++ (List.range count).map (fun i =>
        { beatPosition := rangeStart + (i : ℚ) * intervalBeats,
          controllerType := ctype,
          controllerValue := startVal
            + ⌊(((endVal - startVal : ℤ) : ℚ) * (i : ℚ)) / ((count : ℚ) - 1)⌋ }) }

theorem sortByBeat_isSort : IsSortMidiEventsByTime sortByBeat :=
  fun l => ⟨List.perm_insertionSort beatLE l, List.sorted_insertionSort beatLE l⟩

theorem swappingSort_isSort : IsSortMidiEventsByTime swappingSort := by
  intro l
  unfold swappingSort
  split
  · rename_i h
    subst h
    exact ⟨by decide, by decide⟩
  · exact sortByBeat_isSort l

theorem runCounting_append (sortFn : List MidiEvent → List MidiEvent)
    (l1 l2 : List EventListOp) (s : EventListState) (c : ℕ) :
    runCounting sortFn (l1 ++ l2) s c =
      runCounting sortFn l2 (runCounting sortFn l1 s c).1 (runCounting sortFn l1 s c).2 := by
  induction l1 generalizing s c with
  | nil => simp [runCounting]
  | cons op rest ih => simp [runCounting, ih]

theorem runCounting_markDirty_replicate (sortFn : List MidiEvent → List MidiEvent)
    (n : ℕ) (s : EventListState) (c : ℕ) :
    runCounting sortFn (List.replicate (n + 1) .markDirty) s c =
      ({ s with needsSorting := true }, c) := by
  induction n generalizing s with
  | zero => simp [runCounting, applyOp, triggerSort, rebuildsOf]
  | succ m ih =>
      rw [List.replicate_succ]
      simpa [runCounting, applyOp, triggerSort, rebuildsOf] using ih { s with needsSorting := true }

/-- C2: the sorted event cache is lazily memoized with idempotent invalidation:
the dirty flag starts `true` so the first `getSortedList` rebuilds; a read on a
clean state performs no rebuild and returns the cache unchanged; a read on a
dirty state re-sorts the wrapper set and clears the flag; and any positive
number of `triggerSort` calls between two consecutive reads coalesce into
exactly one rebuild at the next read. -/
theorem c2_lazy_memoized (sortFn : List MidiEvent → List MidiEvent)
    (s : EventListState) (n : ℕ) (hn : 1 ≤ n) :
    initialEventList.needsSorting = true
    ∧ runCounting sortFn [.readSorted] initialEventList 0 =
        ({ objects := [], needsSorting := false, sortedEvents := sortFn [] }, 1)
    ∧ (s.needsSorting = false →
        getSortedList sortFn s = (s.sortedEvents, s) ∧ rebuildsOf s .readSorted = 0)
    ∧ (s.needsSorting = true →
        getSortedList sortFn s =
          (sortFn s.objects,
           { s with needsSorting := false, sortedEvents := sortFn s.objects }))
    ∧ runCounting sortFn (List.replicate n .markDirty ++ [.readSorted]) s 0 =
        ({ objects := s.objects, needsSorting := false,
           sortedEvents := sortFn s.objects }, 1) := by
  obtain ⟨m, rfl⟩ : ∃ m, n = m + 1 := ⟨n - 1, by omega⟩
  refine ⟨rfl, by simp [runCounting, applyOp, getSortedList, rebuildsOf, initialEventList],
    ?_, ?_, ?_⟩
  · intro h
    simp [getSortedList, rebuildsOf, h]
  · intro h
    simp [getSortedList, h]
  · rw [runCounting_append, runCounting_markDirty_replicate]
    simp [runCounting, applyOp, getSortedList, rebuildsOf]

theorem c2_lazy_memoized_witness :
    (1:ℕ) ≤ 3
    ∧ runCounting sortByBeat (List.replicate 3 .markDirty ++ [.readSorted])
        initialEventList 0 =
      ({ objects := [], needsSorting := false, sortedEvents := [] }, 1) := by
  have h := c2_lazy_memoized sortByBeat initialEventList 3 (by decide)
  refine ⟨by decide, ?_⟩
  simpa [initialEventList, sortByBeat, List.insertionSort] using h.2.2.2.2

theorem sortedCacheInv_applyOp (sortFn : List MidiEvent → List MidiEvent)
    (h : IsSortMidiEventsByTime sortFn) (s : EventListState)
    (hs : SortedCacheInv s) (op : EventListOp) :
    SortedCacheInv (applyOp sortFn s op) := by
  cases op with
  | addObject e => exact Or.inl rfl
  | removeObject e => exact Or.inl rfl
  | markDirty => exact Or.inl rfl
  | readSorted =>
      show SortedCacheInv (getSortedList sortFn s).2
      unfold getSortedList
      split
      · exact Or.inr (h s.objects)
      · exact hs

theorem sortedCacheInv_runOps (sortFn : List MidiEvent → List MidiEvent)
    (h : IsSortMidiEventsByTime sortFn) (ops : List EventListOp)
    (s : EventListState) (hs : SortedCacheInv s) :
    SortedCacheInv (runOps sortFn ops s) := by
  induction ops generalizing s with
  | nil => exact hs
  | cons op rest ih =>
      exact ih (applyOp sortFn s op) (sortedCacheInv_applyOp sortFn h s hs op)

/-- C1 (amended): for every implementation of `sortMidiEventsByTime` allowed by
the `std::sort` contract and every sequence of insertions, removals,
invalidations and reads, the sorted view returned by `getSortedList` is
non-decreasing by beat position and is a permutation of the current wrapper
set.  (The stability part of the claim is refuted by `c1_counterexample`.) -/
theorem c1_sorted_view (sortFn : List MidiEvent → List MidiEvent)
    (h : IsSortMidiEventsByTime sortFn) (ops : List EventListOp) :
    ((getSortedList sortFn (runOps sortFn ops initialEventList)).1).Sorted beatLE
    ∧ ((getSortedList sortFn (runOps sortFn ops initialEventList)).1).Perm
        (runOps sortFn ops initialEventList).objects := by
  have hinv : SortedCacheInv (runOps sortFn ops initialEventList) :=
    sortedCacheInv_runOps sortFn h ops initialEventList (Or.inl rfl)
  unfold getSortedList
  split
  · exact ⟨(h (runOps sortFn ops initialEventList).objects).2,
      (h (runOps sortFn ops initialEventList).objects).1⟩
  · rename_i hclean
    rcases hinv with hdirty | hspec
    · exact absurd hdirty hclean
    · exact ⟨hspec.2, hspec.1⟩

theorem c1_sorted_view_witness :
    ((getSortedList sortByBeat (runOps sortByBeat
        [.addObject ⟨3, 0⟩, .addObject ⟨1, 1⟩] initialEventList)).1).Sorted beatLE
    ∧ ((getSortedList sortByBeat (runOps sortByBeat
        [.addObject ⟨3, 0⟩, .addObject ⟨1, 1⟩] initialEventList)).1).Perm
        (runOps sortByBeat [.addObject ⟨3, 0⟩, .addObject ⟨1, 1⟩]
          initialEventList).objects :=
  c1_sorted_view sortByBeat sortByBeat_isSort [.addObject ⟨3, 0⟩, .addObject ⟨1, 1⟩]

/-- C1 counterexample: the claim as stated is false, because `std::sort` is not
a stable sort.  `swappingSort` is allowed by the `std::sort` contract, yet
after inserting two events with equal beat positions the sorted view returns
them in the opposite of their insertion order. -/
theorem c1_counterexample : ¬ C1StabilityClaim := by
  intro h
  have h2 := (h swappingSort swappingSort_isSort
      [.addObject eqBeatA, .addObject eqBeatB]).2 0
  exact absurd h2 (by decide)

theorem juceArrayGet_eq_none (l : List MidiEvent) (index : ℤ)
    (h : index < 0 ∨ (l.length : ℤ) ≤ index) : juceArrayGet l index = none := by
  unfold juceArrayGet
  rw [dif_neg]
  rintro ⟨h1, h2⟩
  omega

theorem juceArrayGet_natCast (l : List MidiEvent) (i : ℕ) (h : i < l.length) :
    juceArrayGet l (i : ℤ) = some (l.get ⟨i, h⟩) := by
  unfold juceArrayGet
  rw [dif_pos ⟨Int.natCast_nonneg i, by simpa using h⟩]
  simp

/-- C10: the bounds-checked accessors `getNote`, `getControllerEvent` and
`getSysexEvent` return a null pointer for every integer index outside
`[0, count)` of the corresponding sorted list, while `getSysexEventUnchecked`
requires the bound as a precondition and agrees with the checked accessor on
every in-range index. -/
theorem c10_indexing_total (sortFn : List MidiEvent → List MidiEvent)
    (s : MidiListState) (index : ℤ) :
    (index < 0 ∨ ((getNotes sortFn s).length : ℤ) ≤ index →
      getNote sortFn s index = none)
    ∧ (index < 0 ∨ ((getControllerEvents sortFn s).length : ℤ) ≤ index →
        getControllerEvent sortFn s index = none)
    ∧ (index < 0 ∨ ((getSysexEvents sortFn s).length : ℤ) ≤ index →
        getSysexEvent sortFn s index = none)
    ∧ (∀ (i : ℕ) (h : i < (getSysexEvents sortFn s).length),
        getSysexEvent sortFn s (i : ℤ) = some (getSysexEventUnchecked sortFn s i h)) :=
  ⟨fun h => juceArrayGet_eq_none _ index h,
   fun h => juceArrayGet_eq_none _ index h,
   fun h => juceArrayGet_eq_none _ index h,
   fun i h => juceArrayGet_natCast _ i h⟩

theorem c10_indexing_total_witness :
    getNote sortByBeat ⟨initialEventList, initialEventList, initialEventList⟩ 0 = none
    ∧ getControllerEvent sortByBeat
        ⟨initialEventList, initialEventList, initialEventList⟩ (-1) = none
    ∧ getSysexEvent sortByBeat
        ⟨initialEventList, initialEventList, initialEventList⟩ 7 = none := by
  have h0 := c10_indexing_total sortByBeat
    ⟨initialEventList, initialEventList, initialEventList⟩ 0
  have h1 := c10_indexing_total sortByBeat
    ⟨initialEventList, initialEventList, initialEventList⟩ (-1)
  have h7 := c10_indexing_total sortByBeat
    ⟨initialEventList, initialEventList, initialEventList⟩ 7
  exact ⟨h0.1 (by right; decide), h1.2.1 (by left; decide), h7.2.2.1 (by right; decide)⟩

/-- C5: switching the current take leaves every take's events unchanged
(current and non-current alike), invalidates the cached looped sequence, and
the next request for the looped sequence is built from the newly selected
take. -/
theorem c5_take_switching (s : MidiClipState) (j : ℕ) :
    (setCurrentTake j s).channelSequence = s.channelSequence
    ∧ (setCurrentTake j s).cachedLoopedSequence = none
    ∧ (getSequenceLooped (setCurrentTake j s)).1 =
        createSequenceLooped s.loopedSequenceType s.loopStartBeats s.loopLengthBeats
          s.originalLength s.clipLengthBeats (s.channelSequence.getD j []) :=
  ⟨rfl, rfl, rfl⟩

/-- C6: `addNote` creates and returns a new note (appending it to the list and
recording it in the undo log) when pitch and velocity are in `[0,127]`, and
fails with `InvalidParameter` when either is out of range; the rejection
happens before any mutation, so on failure the whole state, undo log included,
is returned exactly as it was. -/
theorem c6_addNote_validation (s : MidiListContents) (pitch : ℤ)
    (startBeat lengthInBeats : ℚ) (velocity colourIndex : ℤ) :
    (0 ≤ pitch → pitch ≤ 127 → 0 ≤ velocity → velocity ≤ 127 →
      addNote pitch startBeat lengthInBeats velocity colourIndex s =
        ({ s with
            notes := s.notes ++ [⟨pitch, startBeat, lengthInBeats, velocity, colourIndex⟩],
            undoLog := s.undoLog
              ++ [.noteAdded ⟨pitch, startBeat, lengthInBeats, velocity, colourIndex⟩] },
         .ok ⟨pitch, startBeat, lengthInBeats, velocity, colourIndex⟩))
    ∧ (pitch < 0 ∨ 127 < pitch ∨ velocity < 0 ∨ 127 < velocity →
        addNote pitch startBeat lengthInBeats velocity colourIndex s =
          (s, .error .InvalidParameter)) := by
  constructor
  · intro h1 h2 h3 h4
    unfold addNote
    rw [if_neg]
    rintro (h | h | h | h) <;> omega
  · intro h
    unfold addNote
    rw [if_pos h]

theorem c6_addNote_validation_witness :
    addNote 60 0 1 100 3 ⟨[], [], [], []⟩ =
      ({ notes := [⟨60, 0, 1, 100, 3⟩], controllerEvents := [], sysexEvents := [],
         undoLog := [.noteAdded ⟨60, 0, 1, 100, 3⟩] }, .ok ⟨60, 0, 1, 100, 3⟩)
    ∧ addNote 128 0 1 100 3 ⟨[], [], [], []⟩ =
        (⟨[], [], [], []⟩, .error .InvalidParameter) := by
  have hok := c6_addNote_validation ⟨[], [], [], []⟩ 60 0 1 100 3
  have hbad := c6_addNote_validation ⟨[], [], [], []⟩ 128 0 1 100 3
  exact ⟨by simpa using hok.1 (by decide) (by decide) (by decide) (by decide),
    hbad.2 (by right; left; decide)⟩

theorem list_map_self {α : Type} (f : α → α) (l : List α)
    (h : ∀ x ∈ l, f x = x) : l.map f = l := by
  induction l with
  | nil => rfl
  | cons a t ih =>
      rw [List.map_cons, h a (List.mem_cons_self a t),
        ih (fun x hx => h x (List.mem_cons_of_mem a hx))]

theorem clipNoteAt_startBeat (lastBeat : ℚ) (n : MidiNote) :
    (clipNoteAt lastBeat n).startBeat = n.startBeat := by
  unfold clipNoteAt
  split <;> rfl

theorem clipNoteAt_idem (lastBeat : ℚ) (n : MidiNote) :
    clipNoteAt lastBeat (clipNoteAt lastBeat n) = clipNoteAt lastBeat n := by
  by_cases h : lastBeat < n.startBeat + n.lengthInBeats
  · have hstop : n.startBeat + (lastBeat - n.startBeat) = lastBeat := by ring
    simp [clipNoteAt, h, hstop]
  · simp [clipNoteAt, h]

/-- C7: `trimOutside` is idempotent: applying it twice with the same beat range
yields exactly the same list state as applying it once. -/
theorem c7_trimOutside_idempotent (firstBeat lastBeat : ℚ) (s : MidiListContents) :
    trimOutside firstBeat lastBeat (trimOutside firstBeat lastBeat s) =
      trimOutside firstBeat lastBeat s := by
  unfold trimOutside
  have hfilter : ∀ l : List MidiNote,
      ((l.filter (fun n => decide (firstBeat ≤ n.startBeat)
          && decide (n.startBeat ≤ lastBeat))).map (clipNoteAt lastBeat)).filter
        (fun n => decide (firstBeat ≤ n.startBeat) && decide (n.startBeat ≤ lastBeat)) =
      (l.filter (fun n => decide (firstBeat ≤ n.startBeat)
          && decide (n.startBeat ≤ lastBeat))).map (clipNoteAt lastBeat) := by
    intro l
    rw [List.filter_eq_self]
    intro a ha
    obtain ⟨b, hb, rfl⟩ := List.mem_map.mp ha
    rw [clipNoteAt_startBeat]
    exact (List.mem_filter.mp hb).2
  simp only [MidiListContents.mk.injEq]
  refine ⟨?_, ?_, ?_, trivial⟩
  · rw [hfilter]
    exact list_map_self _ _ (fun x hx => by
      obtain ⟨b, _, rfl⟩ := List.mem_map.mp hx
      exact clipNoteAt_idem lastBeat b)
  · rw [List.filter_eq_self]
    exact fun a ha => (List.mem_filter.mp ha).2
  · rw [List.filter_eq_self]
    exact fun a ha => (List.mem_filter.mp ha).2

/-- C8: `rescale` with a positive factor multiplies every beat position and
note length by the factor, `rescale f` followed by `rescale (1/f)` restores
the original state exactly (beat arithmetic is modelled exactly over ℚ, so the
round trip is exact and in particular within any floating-point tolerance),
and a factor `≤ 0` fails with `InvalidParameter`, leaving the state as it
was. -/
theorem c8_rescale_roundTrip (factor : ℚ) (s : MidiListContents) :
    (0 < factor →
      (rescale (1 / factor) (rescale factor s).1).1 = s
      ∧ (rescale factor s).1.notes = s.notes.map (fun n =>
          { n with startBeat := n.startBeat * factor,
                   lengthInBeats := n.lengthInBeats * factor })
      ∧ (rescale factor s).1.controllerEvents = s.controllerEvents.map (fun e =>
          { e with beatPosition := e.beatPosition * factor })
      ∧ (rescale factor s).1.sysexEvents = s.sysexEvents.map (fun e =>
          { e with beatPosition := e.beatPosition * factor }))
    ∧ (factor ≤ 0 → rescale factor s = (s, .error .InvalidParameter)) := by
  constructor
  · intro h
    have hne : factor ≠ 0 := ne_of_gt h
    have hnot : ¬ factor ≤ 0 := not_le.mpr h
    have hinv : ¬ (1 / factor) ≤ 0 := not_le.mpr (by positivity)
    have hcancel : ∀ x : ℚ, x * factor * factor⁻¹ = x := by
      intro x
      field_simp
    refine ⟨?_, ?_, ?_, ?_⟩
    · obtain ⟨ns, cs, xs, ul⟩ := s
      simp only [rescale, if_neg hnot, if_neg hinv, List.map_map,
        MidiListContents.mk.injEq]
      refine ⟨?_, ?_, ?_, trivial⟩
      · exact list_map_self _ _ (fun x _ => by
          cases x
          simp [Function.comp, hcancel])
      · exact list_map_self _ _ (fun x _ => by
          cases x
          simp [Function.comp, hcancel])
      · exact list_map_self _ _ (fun x _ => by
          cases x
          simp [Function.comp, hcancel])
    · simp [rescale, if_neg hnot]
    · simp [rescale, if_neg hnot]
    · simp [rescale, if_neg hnot]
  · intro h
    simp [rescale, if_pos h]

theorem c8_rescale_roundTrip_witness :
    (rescale (1 / 2) (rescale 2
        ⟨[⟨60, 1, 2, 100, 0⟩], [⟨3, 7, 64⟩], [], []⟩).1).1 =
      ⟨[⟨60, 1, 2, 100, 0⟩], [⟨3, 7, 64⟩], [], []⟩
    ∧ rescale 0 ⟨[⟨60, 1, 2, 100, 0⟩], [⟨3, 7, 64⟩], [], []⟩ =
        (⟨[⟨60, 1, 2, 100, 0⟩], [⟨3, 7, 64⟩], [], []⟩, .error .InvalidParameter) := by
  have h := c8_rescale_roundTrip 2 ⟨[⟨60, 1, 2, 100, 0⟩], [⟨3, 7, 64⟩], [], []⟩
  have h0 := c8_rescale_roundTrip 0 ⟨[⟨60, 1, 2, 100, 0⟩], [⟨3, 7, 64⟩], [], []⟩
  exact ⟨(h.1 (by norm_num)).1, h0.2 le_rfl⟩

/-- C9: `insertRepeatedControllerValue` with controller type 7, values ramping
from 0 to 127 across the beat range `[0,4)` at interval 1 produces controller
events exactly at beats 0, 1, 2, 3 (inclusive of the range start, exclusive of
the range end) with the linearly interpolated values 0, 42, 84, 127. -/
theorem c9_controller_ramp (s : MidiListContents) :
    (insertRepeatedControllerValue 7 0 127 0 4 1 s).controllerEvents =
      s.controllerEvents ++ [⟨0, 7, 0⟩, ⟨1, 7, 42⟩, ⟨2, 7, 84⟩, ⟨3, 7, 127⟩] := by
  unfold insertRepeatedControllerValue
  have hceil : (⌈((4 : ℚ) - 0) / 1⌉) = 4 := by norm_num
  have hcount : ((⌈((4 : ℚ) - 0) / 1⌉).toNat) = 4 := by rw [hceil]; rfl
  simp only [hcount]
  congr 1
  norm_num [List.range_succ, ControllerEvent.mk.injEq]

theorem mem_createSequenceLooped_all (ls ll srcLen exportLen : ℚ)
    (src : List MidiEvent) (hll : 0 < ll) (e : MidiEvent) :
    e ∈ createSequenceLooped .loopRangeDefinesAllRepetitions
        ls ll srcLen exportLen src ↔
      ∃ i : ℕ, ∃ e0 ∈ src,
        (ls ≤ e0.beatPosition ∧ e0.beatPosition < ls + ll)
        ∧ e.payload = e0.payload
        ∧ e.beatPosition = (i : ℚ) * ll + (e0.beatPosition - ls)
        ∧ e.beatPosition < exportLen := by
  unfold createSequenceLooped placeRepetition loopWindowEvents inLoopWindow repsToCover
  simp only [List.mem_filter, List.mem_flatMap, List.mem_map, List.mem_range,
    Bool.and_eq_true, decide_eq_true_eq]
  constructor
  · rintro ⟨⟨i, hi, e0, ⟨he0, hw1, hw2⟩, rfl⟩, hlt⟩
    exact ⟨i, e0, he0, ⟨hw1, hw2⟩, rfl, rfl, hlt⟩
  · rintro ⟨i, e0, he0, ⟨hw1, hw2⟩, hpay, hpos, hlt⟩
    refine ⟨⟨i, ?_, e0, ⟨he0, hw1, hw2⟩, ?_⟩, hlt⟩
    · rw [Int.lt_toNat, Int.lt_ceil]
      push_cast
      rw [lt_div_iff₀ hll]
      nlinarith [hpos, hlt, hw1]
    · obtain ⟨ep, epl⟩ := e
      obtain ⟨e0p, e0pl⟩ := e0
      simp only [MidiEvent.mk.injEq]
      simp only at hpos hpay
      exact ⟨hpos.symm, hpay.symm⟩

theorem mem_createSequenceLooped_subseq (ls ll srcLen exportLen : ℚ)
    (src : List MidiEvent) (hll : 0 < ll) (e : MidiEvent) :
    e ∈ createSequenceLooped .loopRangeDefinesSubsequentRepetitions
        ls ll srcLen exportLen src ↔
      (e ∈ src ∧ 0 ≤ e.beatPosition ∧ e.beatPosition < srcLen
        ∧ e.beatPosition < exportLen)
      ∨ (∃ i : ℕ, ∃ e0 ∈ src,
          (ls ≤ e0.beatPosition ∧ e0.beatPosition < ls + ll)
          ∧ e.payload = e0.payload
          ∧ e.beatPosition = srcLen + (i : ℚ) * ll + (e0.beatPosition - ls)
          ∧ e.beatPosition < exportLen) := by
  unfold createSequenceLooped placeRepetition loopWindowEvents inLoopWindow repsToCover
  simp only [List.mem_append, List.mem_filter, List.mem_flatMap, List.mem_map,
    List.mem_range, Bool.and_eq_true, decide_eq_true_eq]
  constructor
  · rintro (⟨he, ⟨h0, h1⟩, h2⟩ | ⟨⟨i, hi, e0, ⟨he0, hw1, hw2⟩, rfl⟩, hlt⟩)
    · exact Or.inl ⟨he, h0, h1, h2⟩
    · exact Or.inr ⟨i, e0, he0, ⟨hw1, hw2⟩, rfl, rfl, hlt⟩
  · rintro (⟨he, h0, h1, h2⟩ | ⟨i, e0, he0, ⟨hw1, hw2⟩, hpay, hpos, hlt⟩)
    · exact Or.inl ⟨he, ⟨h0, h1⟩, h2⟩
    · refine Or.inr ⟨⟨i, ?_, e0, ⟨he0, hw1, hw2⟩, ?_⟩, hlt⟩
      · rw [Int.lt_toNat, Int.lt_ceil]
        push_cast
        rw [lt_div_iff₀ hll]
        nlinarith [hpos, hlt, hw1]
      · obtain ⟨ep, epl⟩ := e
        obtain ⟨e0p, e0pl⟩ := e0
        simp only [MidiEvent.mk.injEq]
        simp only at hpos hpay
        exact ⟨hpos.symm, hpay.symm⟩

/-- C3 (amended): loop expansion follows the boundary policy of the
`LoopedSequenceType` documentation: under `loopRangeDefinesAllRepetitions` the
entire exported range is tiled from the `[loopStart, loopStart+loopLength)`
window including repetition zero; under
`loopRangeDefinesSubsequentRepetitions` the whole source sequence (beats
`[0, srcLen)`, not merely `[0, loopLength)`) plays verbatim and only beats
beyond the source length repeat the window.  (The claim's `[0, loopLength)`
boundary for the verbatim section is refuted by `c3_counterexample`.) -/
theorem c3_loop_policy (ls ll srcLen exportLen : ℚ) (src : List MidiEvent)
    (hll : 0 < ll) :
    (∀ e : MidiEvent,
      e ∈ createSequenceLooped .loopRangeDefinesAllRepetitions
          ls ll srcLen exportLen src ↔
        ∃ i : ℕ, ∃ e0 ∈ src,
          (ls ≤ e0.beatPosition ∧ e0.beatPosition < ls + ll)
          ∧ e.payload = e0.payload
          ∧ e.beatPosition = (i : ℚ) * ll + (e0.beatPosition - ls)
          ∧ e.beatPosition < exportLen)
    ∧ (∀ e : MidiEvent,
        e ∈ createSequenceLooped .loopRangeDefinesSubsequentRepetitions
            ls ll srcLen exportLen src ↔
          (e ∈ src ∧ 0 ≤ e.beatPosition ∧ e.beatPosition < srcLen
            ∧ e.beatPosition < exportLen)
          ∨ (∃ i : ℕ, ∃ e0 ∈ src,
              (ls ≤ e0.beatPosition ∧ e0.beatPosition < ls + ll)
              ∧ e.payload = e0.payload
              ∧ e.beatPosition = srcLen + (i : ℚ) * ll + (e0.beatPosition - ls)
              ∧ e.beatPosition < exportLen)) :=
  ⟨fun e => mem_createSequenceLooped_all ls ll srcLen exportLen src hll e,
   fun e => mem_createSequenceLooped_subseq ls ll srcLen exportLen src hll e⟩

theorem c3_loop_policy_witness :
    (⟨8, 5⟩ : MidiEvent) ∈ createSequenceLooped
      .loopRangeDefinesSubsequentRepetitions 2 4 8 12 [⟨2, 5⟩]
    ∧ (⟨4, 9⟩ : MidiEvent) ∈ createSequenceLooped
        .loopRangeDefinesAllRepetitions 2 4 8 12 [⟨2, 9⟩] := by
  have h5 := c3_loop_policy 2 4 8 12 [⟨2, 5⟩] (by norm_num)
  have h9 := c3_loop_policy 2 4 8 12 [⟨2, 9⟩] (by norm_num)
  constructor
  · exact (h5.2 ⟨8, 5⟩).mpr (Or.inr ⟨0, ⟨2, 5⟩, by simp,
      ⟨by norm_num, by norm_num⟩, rfl, by norm_num, by norm_num⟩)
  · exact (h9.1 ⟨4, 9⟩).mpr ⟨1, ⟨2, 9⟩, by simp,
      ⟨by norm_num, by norm_num⟩, rfl, by norm_num, by norm_num⟩

/-- C3 counterexample: the claim's boundary for the verbatim section of the
`loopRangeDefinesSubsequentRepetitions` policy is wrong.  With `loopStart = 2`,
`loopLength = 4`, a source 8 beats long holding a single event at beat 5, and
an export length of 8 beats, the looped sequence contains that event verbatim
at beat 5 — beat 5 lies beyond `loopLength = 4`, where the claim allows only
translates of the loop window (which would sit at beat `7 + 4i`), and the
claim's verbatim section `[0, loopLength)` does not contain it either.  (The
first section is the whole sequence, as the `LoopedSequenceType` documentation
states, not just `[0, loopLength)`.) -/
theorem c3_counterexample : ¬ C3SubsequentClaimAsStated := by
  intro h
  have hmem : (⟨5, 0⟩ : MidiEvent) ∈ createSequenceLooped
      .loopRangeDefinesSubsequentRepetitions 2 4 8 8 [⟨5, 0⟩] := by
    unfold createSequenceLooped
    refine List.mem_append_left _ ?_
    rw [List.mem_filter]
    refine ⟨by simp, ?_⟩
    norm_num
  have h2 := (h 2 4 8 8 [⟨5, 0⟩] (by norm_num) ⟨5, 0⟩).mp hmem
  rcases h2 with ⟨_, _, h5, _⟩ | ⟨i, e0, he0, hw, hpay, hpos, hlt⟩
  · norm_num at h5
  · have he0eq : e0 = ⟨5, 0⟩ := by simpa using he0
    subst he0eq
    simp only at hpos
    have hge : (0 : ℚ) ≤ (i : ℚ) := by positivity
    nlinarith [hpos, hge]

/-- C4: with `loopStart = 2`, `loopLength = 4`, policy
`loopRangeDefinesSubsequentRepetitions`, a source sequence 8 beats long and a
requested export length of 12 beats, the looped sequence contains beats
`[0, 8)` verbatim from the source and at beats `[8, 12)` exactly the events
the source has at beats `[2, 6)` (an event at output beat `b` corresponds to a
source event at beat `b - 6`). -/
theorem c4_loop_scenario (src : List MidiEvent)
    (hsrc : ∀ e ∈ src, 0 ≤ e.beatPosition ∧ e.beatPosition < 8) :
    (∀ e : MidiEvent, e.beatPosition < 8 →
      (e ∈ createSequenceLooped .loopRangeDefinesSubsequentRepetitions 2 4 8 12 src
        ↔ e ∈ src))
    ∧ (∀ b : ℚ, 8 ≤ b → b < 12 → ∀ p : ℕ,
        ((∃ e ∈ createSequenceLooped .loopRangeDefinesSubsequentRepetitions
            2 4 8 12 src, e.beatPosition = b ∧ e.payload = p)
          ↔ ∃ e0 ∈ src, e0.beatPosition = b - 6 ∧ e0.payload = p)) := by
  constructor
  · intro e he8
    rw [mem_createSequenceLooped_subseq 2 4 8 12 src (by norm_num) e]
    constructor
    · rintro (⟨hmem, _⟩ | ⟨i, e0, he0, ⟨hw1, _⟩, _, hpos, _⟩)
      · exact hmem
      · exfalso
        have hge : (0 : ℚ) ≤ (i : ℚ) := by positivity
        nlinarith [hpos, hw1, he8]
    · intro hmem
      obtain ⟨h0, h8⟩ := hsrc e hmem
      exact Or.inl ⟨hmem, h0, h8, by linarith⟩
  · intro b hb8 hb12 p
    constructor
    · rintro ⟨e, hmem, hpos, hpay⟩
      rw [mem_createSequenceLooped_subseq 2 4 8 12 src (by norm_num) e] at hmem
      rcases hmem with ⟨_, _, h8, _⟩ | ⟨i, e0, he0, ⟨hw1, hw2⟩, hpay0, hpos0, _⟩
      · exfalso
        rw [hpos] at h8
        linarith
      · have hi0 : i = 0 := by
          by_contra hne
          have h1 : (1 : ℚ) ≤ (i : ℚ) := by
            exact_mod_cast Nat.one_le_iff_ne_zero.mpr hne
          rw [hpos] at hpos0
          nlinarith [hpos0, hw1, hb12]
        subst hi0
        rw [hpos] at hpos0
        refine ⟨e0, he0, by push_cast at hpos0; linarith, ?_⟩
        rw [← hpay0, hpay]
    · rintro ⟨e0, he0, hpos0, hpay0⟩
      refine ⟨⟨b, p⟩, ?_, rfl, rfl⟩
      rw [mem_createSequenceLooped_subseq 2 4 8 12 src (by norm_num) ⟨b, p⟩]
      refine Or.inr ⟨0, e0, he0, ⟨?_, ?_⟩, ?_, ?_, ?_⟩
      · rw [hpos0]; linarith
      · rw [hpos0]; linarith
      · simpa using hpay0.symm
      · show b = 8 + (0 : ℕ) * 4 + (e0.beatPosition - 2)
        rw [hpos0]; push_cast; ring
      · simpa using hb12

theorem c4_loop_scenario_witness :
    ∃ e ∈ createSequenceLooped .loopRangeDefinesSubsequentRepetitions 2 4 8 12
        [⟨0, 1⟩, ⟨3, 2⟩], e.beatPosition = 9 ∧ e.payload = 2 := by
  have h := c4_loop_scenario [⟨0, 1⟩, ⟨3, 2⟩] (by decide)
  exact (h.2 9 (by norm_num) (by norm_num) 2).mpr ⟨⟨3, 2⟩, by decide, by norm_num, rfl⟩
